import Mathlib

set_option maxHeartbeats 1000000

/-! Shallow embedding of the audio feature-extraction pipeline of
`src/backend/app.py` (the Flask backend of the praat-latest repository).

Float arithmetic is modelled as exact arithmetic over `ℚ`.  Calls into the
external numeric libraries (numpy's FFT, scipy's periodogram, scipy's WAV
reader and parselmouth/Praat) are abstracted as a deterministic oracle
record `Lib`; everything the repository's own code does with the values
those libraries return is embedded directly from the source. -/

/-- Sample dtype as returned by `scipy.io.wavfile.read`.  `other` covers every
dtype that is not special-cased at app.py lines 318-325 (with scipy the only
reachable such dtype is `float64`, from 64-bit IEEE-float WAV files). -/
inductive Dtype where
  | int16
  | int32
  | uint8
  | float32
  | other
  deriving DecidableEq

/-- Decoded sample data: a 1-D array (mono) or a 2-D array
(frames × channels), mirroring `samples.shape` at app.py line 333. -/
inductive RawSamples where
  | mono (xs : List ℚ)
  | multi (frames : List (List ℚ))
  deriving DecidableEq

/-- Result record of `compute_basic_features` (app.py lines 80-85). -/
structure BasicFeatures where
  rms : ℚ
  zcr : ℚ
  spectralCentroid : ℚ
  spectralFlatness : ℚ
  deriving DecidableEq

/-- Result record of `extract_praat_features` (app.py lines 201-209). -/
structure PraatFeatures where
  f0_mean : ℚ
  f0_range : ℚ
  jitter : ℚ
  shimmer : ℚ
  f1 : ℚ
  f2 : ℚ
  speech_rate : ℚ
  deriving DecidableEq

/-- The response record assembled at app.py lines 348-363.  Being a Lean
structure, it always has exactly these twelve fields, all numeric
(`mfcc` is the 13-element cepstral-band list); no field can be absent. -/
structure FeatureVector where
  rms : ℚ
  zcr : ℚ
  spectralCentroid : ℚ
  spectralFlatness : ℚ
  mfcc : List ℚ
  f0_mean : ℚ
  f0_range : ℚ
  jitter : ℚ
  shimmer : ℚ
  f1 : ℚ
  f2 : ℚ
  speech_rate : ℚ
  deriving DecidableEq

/-- Oracle for the external numeric libraries.  Each field abstracts one
library entry point used by app.py; `Option` results model calls that can
raise (the `none` case is an exception caught by the enclosing handler).
`fftMag_len` records the one library fact the proofs rely on: the discrete
Fourier transform of a signal has as many bins as the signal has samples. -/
structure Lib where
  /-- Library call `np.sqrt`, composed with the mean of squares (app.py line 64). -/
  sqrt : ℚ → ℚ
  /-- Library call `scipy.signal.periodogram` (app.py line 72): the one-sided
  PSD bin values on success; `none` models the `ZeroDivisionError` it raises
  (via `1/fs`) when the decoded sample rate is zero — `wavfile.read` does not
  validate the rate header, and this call has no enclosing `try`. -/
  periodogram : List ℚ → ℚ → Option (ℕ → ℚ)
  /-- Library fact: the periodogram raises only at a zero sample rate. -/
  periodogram_some : ∀ xs fs, fs ≠ 0 → ∃ p, periodogram xs fs = some p
  /-- Library value `exp(mean(log psd))`, the geometric mean at app.py line 77. -/
  geomMean : List ℚ → ℚ
  /-- Library value `np.abs(np.fft.fft(samples))` (app.py lines 228-229); `none`
  models the `ValueError` that `np.fft.fft` raises on a zero-length input. -/
  fftMag : List ℚ → Option (List ℚ)
  fftMag_len : ∀ xs ys, fftMag xs = some ys → ys.length = xs.length
  /-- Whether any parselmouth call inside the outer `try` of
  `extract_praat_features` raises (app.py lines 90-210). -/
  praatFails : List ℚ → ℚ → Bool
  /-- Library call `pitch.get_value_at_time t` (app.py line 113); `none` models
  both `None` and the NaN Praat returns for unvoiced frames. -/
  f0At : List ℚ → ℚ → ℚ → Option ℚ
  /-- Library call `formant.get_value_at_time(formant_number, t)` (app.py lines 145-146). -/
  formantAt : List ℚ → ℚ → ℕ → ℚ → Option ℚ
  /-- Whether `To PointProcess` or `Get number of points` raises
  (the inner `try` at app.py lines 162-186). -/
  ppFails : List ℚ → ℚ → Bool
  /-- Praat call `Get number of points` on the point process (app.py line 167). -/
  nPulses : List ℚ → ℚ → ℕ
  /-- Praat call `Get jitter (local)` (app.py line 172); `none` models an exception. -/
  jitterCall : List ℚ → ℚ → Option ℚ
  /-- Praat call `Get shimmer (local)` (app.py line 179); `none` models an exception. -/
  shimmerCall : List ℚ → ℚ → Option ℚ
  /-- Library call `scipy.io.wavfile.read` on the uploaded byte buffer (app.py line 312):
  sample rate, dtype and sample data on success, the raised message on a
  decode failure. -/
  read : List ℕ → Except String (ℚ × Dtype × RawSamples)

/-- app.py line 24. -/
def TIME_STEP_S : ℚ := 1 / 100

/-- app.py line 22 (passed to the Praat calls, fixed). -/
def PITCH_FLOOR_HZ : ℚ := 75

/-- app.py line 23 (passed to the Praat calls, fixed). -/
def PITCH_CEILING_HZ : ℚ := 600

/-- The floor applied to every PSD bin at app.py line 73 (`1e-20`). -/
def PSD_FLOOR : ℚ := 1 / 10 ^ 20

/-- All sample values of a decoded array, row-major (what numpy reductions
such as `np.max(np.abs(samples))` traverse). -/
def allSamples : RawSamples → List ℚ
  | .mono xs => xs
  | .multi fs => fs.flatten

/-- Elementwise map over a decoded array (numpy broadcasting of `/`, `-`). -/
def mapSamples (f : ℚ → ℚ) : RawSamples → RawSamples
  | .mono xs => .mono (xs.map f)
  | .multi fs => .multi (fs.map (fun row => row.map f))

/-- Model of `np.max(np.abs(samples))` for a non-empty array (every `|x|` is `≥ 0`,
so folding `max` from `0` computes the true maximum). -/
def peak (r : RawSamples) : ℚ := (allSamples r).foldr (fun x m => max |x| m) 0

/-- Bit-depth normalization, app.py lines 317-330.  In the fallback branch
`np.max` raises a `ValueError` on an empty array (caught by the route-level
handler), modelled by `none`. -/
def normalizeSamples (d : Dtype) (r : RawSamples) : Option RawSamples :=
  match d with
  | .int16 => some (mapSamples (fun x => x / 32768) r)
  | .int32 => some (mapSamples (fun x => x / 2147483648) r)
  | .uint8 => some (mapSamples (fun x => (x - 128) / 128) r)
  | .float32 => some r
  | .other =>
    if allSamples r = [] then none
    else if 1 < peak r then some (mapSamples (fun x => x / peak r) r) else some r

/-- Stereo-to-mono conversion, app.py lines 333-335: a 2-D array is averaged
across channels (`samples.mean(axis=1)`), a 1-D array passes through. -/
def toMono : RawSamples → List ℚ
  | .mono xs => xs
  | .multi fs => fs.map (fun row => row.sum / (row.length : ℚ))

/-- The fallback branch of app.py lines 326-330 as claim C5 words it:
any other dtype is rescaled by its observed peak, unconditionally. -/
def normalizeOtherClaim (r : RawSamples) : RawSamples :=
  mapSamples (fun x => x / peak r) r

/-- Normalization as specified, with the fallback amended to match the code:
the peak rescale applies only when the observed peak exceeds `1.0`;
otherwise the samples pass through unchanged. -/
def normalizeSpecAmended (d : Dtype) (r : RawSamples) : RawSamples :=
  match d with
  | .int16 => mapSamples (fun x => x / 32768) r
  | .int32 => mapSamples (fun x => x / 2 ^ 31) r
  | .uint8 => mapSamples (fun x => (x - 128) / 128) r
  | .float32 => r
  | .other => if 1 < peak r then mapSamples (fun x => x / peak r) r else r

/-- Model of `np.sum(np.abs(np.diff(np.signbit(x))))` (app.py line 66): the number of
adjacent sample pairs whose sign bits differ (numpy `diff` is XOR on
boolean input). -/
def signChanges : List ℚ → ℕ
  | x :: y :: rest => (if x < 0 ↔ y < 0 then 0 else 1) + signChanges (y :: rest)
  | _ => 0

/-- Number of one-sided periodogram bins for an `n`-sample signal. -/
def psdBins (n : ℕ) : ℕ := n / 2 + 1

/-- Periodogram bin frequency `k·fs/n`. -/
def freqAt (fs : ℚ) (n k : ℕ) : ℚ := (k : ℚ) * fs / (n : ℚ)

/-- The PSD vector used by `compute_basic_features`: the periodogram bins of
an `n`-sample signal, each floored at `1e-20` (app.py lines 72-73). -/
def psdList (p : ℕ → ℚ) (n : ℕ) : List ℚ :=
  (List.range (psdBins n)).map (fun k => max (p k) PSD_FLOOR)

/-- The periodogram frequency vector. -/
def freqList (xs : List ℚ) (fs : ℚ) : List ℚ :=
  (List.range (psdBins xs.length)).map (freqAt fs xs.length)

/-- Embedding of `compute_basic_features` (app.py lines 59-85).  The function
has no `try`: on the empty signal it returns zeros before the periodogram
call, but if the periodogram raises (zero sample rate) the exception
propagates to the caller, modelled by `none`. -/
def compute_basic_features (o : Lib) (samples : List ℚ) (sample_rate : ℚ) :
    Option BasicFeatures :=
  if samples = [] then some ⟨0, 0, 0, 0⟩
  else
    match o.periodogram samples sample_rate with
    | none => none
    | some p =>
      let n := samples.length
      let rms := o.sqrt ((samples.map (fun a => a * a)).sum / (n : ℚ))
      let zcr := if 1 < n then (signChanges samples : ℚ) / ((n : ℚ) - 1) else 0
      let psd := psdList p n
      let freqs := freqList samples sample_rate
      let centroid :=
        if 0 < psd.sum then
          (List.zipWith (fun fr q => fr * q) freqs psd).sum / psd.sum
        else 0
      let geom := o.geomMean psd
      let arith := if psd.length ≠ 0 then psd.sum / (psd.length : ℚ) else 0
      let flatness := if 0 < arith then geom / arith else 0
      some ⟨rms, zcr, centroid, flatness⟩

/-- Band boundary `int((i * len(magnitude)) / num_coeffs)` (app.py line 234). -/
def bandStart (M c i : ℕ) : ℕ := i * M / c

/-- Band boundary `int(((i + 1) * len(magnitude)) / num_coeffs)`
(app.py line 235). -/
def bandEnd (M c i : ℕ) : ℕ := (i + 1) * M / c

/-- Embedding of `compute_mfcc` (app.py lines 224-242).  The bare `except` returns the
all-zero fallback; the only thing in the `try` that can raise is
`np.fft.fft` on a zero-length input, modelled by `o.fftMag _ = none`. -/
def compute_mfcc (o : Lib) (samples : List ℚ) (sample_rate : ℚ)
    (num_coeffs : ℕ := 13) : List ℚ :=
  match o.fftMag samples with
  | none => List.replicate num_coeffs 0
  | some fftm =>
    let magnitude := fftm.take (fftm.length / 2)
    (List.range num_coeffs).map (fun i =>
      let start := bandStart magnitude.length num_coeffs i
      let stop := bandEnd magnitude.length num_coeffs i
      if start < stop then
        ((magnitude.drop start).take (stop - start)).sum / ((stop - start : ℕ) : ℚ)
      else 0)

/-- Spec-side cepstral-band definition (spec section 4.3, claim C6): partition
the half-spectrum index set into `numCoeffs` contiguous ranges
`[⌊i·M/c⌋, ⌊(i+1)·M/c⌋)` and take the arithmetic mean of the magnitudes
within each range, `0.0` for an empty range. -/
def cepstralBandsSpec (numCoeffs : ℕ) (magnitude : List ℚ) : List ℚ :=
  (List.range numCoeffs).map (fun i =>
    let band := Finset.Ico (bandStart magnitude.length numCoeffs i)
      (bandEnd magnitude.length numCoeffs i)
    if band.Nonempty then (∑ j in band, magnitude.getD j 0) / (band.card : ℚ)
    else 0)

/-- Number of analysis frames `np.arange(0, duration, TIME_STEP_S).size`
(app.py lines 112 and 144): `⌈duration / 0.01⌉` frames, none when the
duration is not positive. -/
def frameCount (duration : ℚ) : ℕ := ⌈duration / TIME_STEP_S⌉₊

/-- The frame times `0, 0.01, 0.02, …` iterated at app.py lines 112 and 144. -/
def frameTimes (duration : ℚ) : List ℚ :=
  (List.range (frameCount duration)).map (fun k => (k : ℚ) * TIME_STEP_S)

/-- Model of `sound.duration` for a Praat sound built from `samples` at `sample_rate`
(app.py line 93): number of samples times the sampling period. -/
def praatDuration (samples : List ℚ) (rate : ℚ) : ℚ := (samples.length : ℚ) / rate

/-- The voiced-frame pitch values collected at app.py lines 112-115:
per frame, keep `f0` only when the library returned a value and it is
positive. -/
def voicedF0s (o : Lib) (samples : List ℚ) (rate : ℚ) : List ℚ :=
  (frameTimes (praatDuration samples rate)).filterMap
    (fun t => (o.f0At samples rate t).bind (fun v => if 0 < v then some v else none))

/-- The formant values collected at app.py lines 144-150 for formant `k`. -/
def formantVals (o : Lib) (samples : List ℚ) (rate : ℚ) (k : ℕ) : List ℚ :=
  (frameTimes (praatDuration samples rate)).filterMap
    (fun t => (o.formantAt samples rate k t).bind (fun v => if 0 < v then some v else none))

/-- Model of `np.min` of a non-empty list (`0` as an unused default for `[]`). -/
def listMin : List ℚ → ℚ
  | [] => 0
  | x :: xs => xs.foldl min x

/-- Model of `np.max` of a non-empty list (`0` as an unused default for `[]`). -/
def listMax : List ℚ → ℚ
  | [] => 0
  | x :: xs => xs.foldl max x

/-- The all-default dictionary returned when Praat extraction fails
(app.py lines 213-221). -/
def defaultPraat : PraatFeatures := ⟨0, 0, 0, 0, 0, 0, 0⟩

/-- Embedding of `extract_praat_features` (app.py lines 88-221).  The outer `try` makes
any library failure yield `defaultPraat`; otherwise the function aggregates
the oracle's per-frame values exactly as the source does. -/
def extract_praat_features (o : Lib) (samples : List ℚ) (sample_rate : ℚ) :
    PraatFeatures :=
  if o.praatFails samples sample_rate then defaultPraat
  else
    let duration := praatDuration samples sample_rate
    let f0_values := voicedF0s o samples sample_rate
    let f0_mean := if f0_values ≠ [] then f0_values.sum / (f0_values.length : ℚ) else 0
    let f0_range := if f0_values ≠ [] then listMax f0_values - listMin f0_values else 0
    let f1_values := formantVals o samples sample_rate 1
    let f2_values := formantVals o samples sample_rate 2
    let f1_mean := if f1_values ≠ [] then f1_values.sum / (f1_values.length : ℚ) else 0
    let f2_mean := if f2_values ≠ [] then f2_values.sum / (f2_values.length : ℚ) else 0
    let js : ℚ × ℚ :=
      if o.ppFails samples sample_rate then (0, 0)
      else if 1 < o.nPulses samples sample_rate then
        ((match o.jitterCall samples sample_rate with
          | some j => j * 100
          | none => 0),
         (match o.shimmerCall samples sample_rate with
          | some s => s * 100
          | none => 0))
      else (0, 0)
    let speech_rate :=
      if f0_values ≠ [] then
        let voiced_duration := (f0_values.length : ℚ) * TIME_STEP_S
        let words_estimate := voiced_duration / (1 / 2)
        let sr0 := if 0 < duration then words_estimate / duration * 60 else 0
        max 80 (min 200 sr0)
      else 0
    ⟨f0_mean, f0_range, js.1, js.2, f1_mean, f2_mean, speech_rate⟩

/-- The response assembly of app.py lines 337-363: basic features, cepstral
bands and Praat features of the mono signal, merged into one record.
An uncaught exception in `compute_basic_features` aborts the assembly
(`none`), reaching the route-level handler. -/
def buildVector (o : Lib) (sample_rate : ℚ) (samples : List ℚ) : Option FeatureVector :=
  match compute_basic_features o samples sample_rate with
  | none => none
  | some basic =>
    let mfcc := compute_mfcc o samples sample_rate 13
    let praat := extract_praat_features o samples sample_rate
    some { rms := basic.rms
           zcr := basic.zcr
           spectralCentroid := basic.spectralCentroid
           spectralFlatness := basic.spectralFlatness
           mfcc := mfcc
           f0_mean := praat.f0_mean
           f0_range := praat.f0_range
           jitter := praat.jitter
           shimmer := praat.shimmer
           f1 := praat.f1
           f2 := praat.f2
           speech_rate := praat.speech_rate }

/-- The error message produced when `np.max` is applied to an empty array in
the normalization fallback, wrapped by the handler at app.py line 366. -/
def NP_MAX_EMPTY_MSG : String :=
  "Audio processing failed: zero-size array to reduction operation maximum which has no identity"

/-- The error message produced when scipy's periodogram raises a
`ZeroDivisionError` at a zero sample rate, wrapped by the handler at
app.py line 366. -/
def ZERO_DIV_MSG : String := "Audio processing failed: division by zero"

/-- The body of the `extract_features` route after a successful
`wavfile.read` (app.py lines 317-363): normalize the bit depth, downmix to
mono and build the feature vector. -/
def extract_decoded (o : Lib) (sample_rate : ℚ) (d : Dtype) (raw : RawSamples) :
    Except String FeatureVector :=
  match normalizeSamples d raw with
  | none => .error NP_MAX_EMPTY_MSG
  | some ns =>
    match buildVector o sample_rate (toMono ns) with
    | none => .error ZERO_DIV_MSG
    | some fv => .ok fv

/-- The `extract_features` route from `data = file.read()` on
(app.py lines 304-366): a `wavfile.read` failure is caught by the
route-level handler and surfaces as a request error; on success the
pipeline runs to completion. -/
def extract_features (o : Lib) (data : List ℕ) : Except String FeatureVector :=
  match o.read data with
  | .error e => .error ("Audio processing failed: " ++ e)
  | .ok (rate, d, raw) => extract_decoded o rate d raw

/-- The log lines a request appends to the module logger (the only
module-level state the route touches; app.py lines 315, 345, 365). -/
def requestLogLines (o : Lib) (data : List ℕ) : List String :=
  match o.read data with
  | .error e => ["Error in extract_features: " ++ e]
  | .ok _ =>
    match extract_features o data with
    | .ok _ => ["Processing audio", "Features extracted successfully"]
    | .error e => ["Processing audio", "Error in extract_features: " ++ e]

/-- One request handled against the module state: the response is computed
from the byte buffer alone and the handler appends its log lines to the
module-level log stream. -/
def extract_features_run (o : Lib) (data : List ℕ) (log : List String) :
    Except String FeatureVector × List String :=
  (extract_features o data, log ++ requestLogLines o data)

/-- A concrete oracle used to instantiate theorems: the FFT magnitude of an
`n`-sample signal is some length-`n` vector, Praat fails exactly on the
empty signal (a Praat `Sound` needs at least one sample), and the reader is
a parameter. -/
def stubLib (rd : List ℕ → Except String (ℚ × Dtype × RawSamples)) : Lib where
  sqrt _ := 0
  periodogram _ fs := if fs = 0 then none else some (fun _ => 0)
  periodogram_some := fun _ fs h => ⟨fun _ => 0, if_neg h⟩
  geomMean _ := 0
  fftMag xs := some (List.replicate xs.length 0)
  fftMag_len := fun xs ys h => by
    cases h
    exact List.length_replicate xs.length 0
  praatFails s _ := s.isEmpty
  f0At _ _ _ := none
  formantAt _ _ _ _ := none
  ppFails _ _ := false
  nPulses _ _ := 0
  jitterCall _ _ := none
  shimmerCall _ _ := none
  read := rd

/-- A concrete oracle whose reader always fails and whose FFT always raises. -/
def failLib : Lib :=
  { stubLib (fun _ => .error "bad wav") with
    fftMag := fun _ => none
    fftMag_len := fun _ _ h => by cases h }

/-- A concrete oracle whose reader decodes every buffer to a one-sample
16-bit mono signal at 8 kHz. -/
def okLib : Lib := stubLib (fun _ => .ok (8000, Dtype.int16, RawSamples.mono [1]))

/-- A concrete oracle whose reader decodes every buffer to a one-sample
16-bit mono signal whose WAV header declares a zero sample rate. -/
def zeroRateLib : Lib := stubLib (fun _ => .ok (0, Dtype.int16, RawSamples.mono [1]))

/-- A concrete oracle whose reader decodes every buffer to a two-sample
32-bit-float mono signal whose WAV header declares a zero sample rate. -/
def zeroRateFloatLib : Lib :=
  stubLib (fun _ => .ok (0, Dtype.float32, RawSamples.mono [1, -1]))

/-- The cepstral-band list always has exactly `num_coeffs` entries, on both
the success path and the exception fallback of `compute_mfcc`. -/
theorem compute_mfcc_length (o : Lib) (samples : List ℚ) (sr : ℚ) (c : ℕ) :
    (compute_mfcc o samples sr c).length = c := by
  unfold compute_mfcc
  cases h : o.fftMag samples <;> simp [h]

/-- On the empty signal `compute_mfcc` returns the all-zero list: either
`np.fft.fft` raises (the fallback), or the magnitude half-spectrum is empty
and every band range is empty. -/
theorem compute_mfcc_nil (o : Lib) (sr : ℚ) (c : ℕ) :
    compute_mfcc o [] sr c = List.replicate c 0 := by
  unfold compute_mfcc
  cases h : o.fftMag [] with
  | none => simp
  | some ys =>
    have hlen : ys.length = 0 := o.fftMag_len [] ys h
    have hys : ys = [] := List.length_eq_zero.mp hlen
    subst hys
    simp [bandStart, bandEnd, List.map_const']

/-- With a nonzero sample rate the spectral stage cannot raise, so the
response assembly always produces a record, whose cepstral-band list has
exactly 13 entries. -/
theorem buildVector_some (o : Lib) (rate : ℚ) (samples : List ℚ) (hrate : rate ≠ 0) :
    ∃ fv, buildVector o rate samples = some fv ∧ fv.mfcc.length = 13 := by
  have hb : ∃ basic, compute_basic_features o samples rate = some basic := by
    unfold compute_basic_features
    by_cases hs : samples = []
    · rw [if_pos hs]
      exact ⟨_, rfl⟩
    · obtain ⟨p, hp⟩ := o.periodogram_some samples rate hrate
      rw [if_neg hs, hp]
      exact ⟨_, rfl⟩
  obtain ⟨basic, hbasic⟩ := hb
  have hbuild : buildVector o rate samples = some
      { rms := basic.rms
        zcr := basic.zcr
        spectralCentroid := basic.spectralCentroid
        spectralFlatness := basic.spectralFlatness
        mfcc := compute_mfcc o samples rate 13
        f0_mean := (extract_praat_features o samples rate).f0_mean
        f0_range := (extract_praat_features o samples rate).f0_range
        jitter := (extract_praat_features o samples rate).jitter
        shimmer := (extract_praat_features o samples rate).shimmer
        f1 := (extract_praat_features o samples rate).f1
        f2 := (extract_praat_features o samples rate).f2
        speech_rate := (extract_praat_features o samples rate).speech_rate } := by
    unfold buildVector
    rw [hbasic]
  exact ⟨_, hbuild, compute_mfcc_length o samples rate 13⟩

/-- Claim C1 counterexample: a syntactically valid WAV whose header declares
a zero sample rate decodes successfully — `wavfile.read` does not validate
the rate field and the bit-depth normalization succeeds — yet the request
returns an error instead of a complete feature vector, because scipy's
periodogram raises an uncaught `ZeroDivisionError` inside
`compute_basic_features`. -/
theorem c1_complete_feature_vector_counterexample :
    zeroRateLib.read [7] = .ok (0, Dtype.int16, RawSamples.mono [1]) ∧
    normalizeSamples Dtype.int16 (RawSamples.mono [1]) =
      some (RawSamples.mono [1 / 32768]) ∧
    extract_features zeroRateLib [7] = .error ZERO_DIV_MSG := by
  exact ⟨rfl, by simp [normalizeSamples, mapSamples], rfl⟩

/-- Claim C1 amended: whenever the decode stage succeeds (`wavfile.read`
returns and the bit-depth normalization does not raise) and the decoded
sample rate is nonzero — at a zero rate scipy's periodogram raises an
uncaught `ZeroDivisionError` and the request fails — the route returns
`ok` with a fully built `FeatureVector`, a record with the fixed
twelve-field shape whose cepstral-band list has exactly 13 entries.
Subcomponent failures only change field values (to defaults), never the
record shape. -/
theorem c1_complete_feature_vector (o : Lib) (data : List ℕ) (rate : ℚ) (d : Dtype)
    (raw ns : RawSamples) (hr : o.read data = .ok (rate, d, raw))
    (hn : normalizeSamples d raw = some ns) (hrate : rate ≠ 0) :
    ∃ fv, extract_features o data = .ok fv ∧ fv.mfcc.length = 13 := by
  obtain ⟨fv, hfv, hlen⟩ := buildVector_some o rate (toMono ns) hrate
  exact ⟨fv, by simp [extract_features, extract_decoded, hr, hn, hfv], hlen⟩

/-- Witness for the amended C1 at a concrete one-sample 16-bit input. -/
theorem c1_complete_feature_vector_witness :
    (extract_features okLib [7]).map (fun fv => fv.mfcc.length) = Except.ok 13 := by
  obtain ⟨fv, h1, h2⟩ := c1_complete_feature_vector okLib [7] 8000 Dtype.int16
    (RawSamples.mono [1]) (RawSamples.mono [1 / 32768]) rfl
    (by simp [normalizeSamples, mapSamples]) (by norm_num)
  rw [h1]
  simp [Except.map, h2]

/-- Claim C2: on the empty decoded signal every feature-computation function
returns its documented default and none of them raises to the caller (the
basic features return `some` zeros before the periodogram is ever
invoked): the basic features are all `0`, the 13 cepstral bands are all
`0`, and every Praat-derived field is `0`.  The hypothesis records the
library behavior the jitter/shimmer defaults rest on: on a zero-sample
signal Praat either raises (caught by a handler) or finds at most one
pulse. -/
theorem c2_empty_signal_defaults (o : Lib) (rate : ℚ)
    (h : o.praatFails [] rate = true ∨ o.ppFails [] rate = true ∨
      o.nPulses [] rate ≤ 1) :
    compute_basic_features o [] rate = some ⟨0, 0, 0, 0⟩ ∧
    compute_mfcc o [] rate 13 = List.replicate 13 0 ∧
    extract_praat_features o [] rate = defaultPraat := by
  refine ⟨rfl, compute_mfcc_nil o rate 13, ?_⟩
  by_cases hf : o.praatFails [] rate = true
  · simp [extract_praat_features, hf]
  · have hd : praatDuration ([] : List ℚ) rate = 0 := by simp [praatDuration]
    have hft : frameTimes (praatDuration ([] : List ℚ) rate) = [] := by
      simp [frameTimes, frameCount, hd, TIME_STEP_S]
    have hv : voicedF0s o [] rate = [] := by simp [voicedF0s, hft]
    have hf1 : formantVals o [] rate 1 = [] := by simp [formantVals, hft]
    have hf2 : formantVals o [] rate 2 = [] := by simp [formantVals, hft]
    rcases h with h | h | h
    · exact absurd h hf
    · simp [extract_praat_features, hf, hv, hf1, hf2, h, defaultPraat]
    · have hn : ¬ 1 < o.nPulses [] rate := by omega
      simp [extract_praat_features, hf, hv, hf1, hf2, hn, defaultPraat]

/-- Witness for C2 at a concrete oracle (Praat raising on the empty sound). -/
theorem c2_empty_signal_defaults_witness :
    compute_basic_features failLib [] 8000 = some ⟨0, 0, 0, 0⟩ ∧
    compute_mfcc failLib [] 8000 13 = List.replicate 13 0 ∧
    extract_praat_features failLib [] 8000 = defaultPraat :=
  c2_empty_signal_defaults failLib 8000 (Or.inl rfl)

/-- Claim C3 counterexample: with a zero sample-rate header and a non-empty
float signal the decode stage succeeds (reader and bit-depth
normalization), yet a request-level error surfaces from inside
`compute_basic_features`, which has no `try` — a spectral-stage failure,
not a decode-stage one, so the propagation policy as stated is false of
the code. -/
theorem c3_failure_propagation_counterexample :
    zeroRateFloatLib.read [9] = .ok (0, Dtype.float32, RawSamples.mono [1, -1]) ∧
    normalizeSamples Dtype.float32 (RawSamples.mono [1, -1]) =
      some (RawSamples.mono [1, -1]) ∧
    extract_features zeroRateFloatLib [9] = .error ZERO_DIV_MSG := by
  exact ⟨rfl, rfl, rfl⟩

/-- Claim C3 amended: the propagation policy of the route.  A Praat failure
is caught at the `extract_praat_features` boundary and yields the
all-default dictionary; an FFT failure is caught at the `compute_mfcc`
boundary and yields the 13 zeros; whenever the decode stage succeeds with
a nonzero sample rate the request yields a complete feature vector; a
reader failure surfaces as the request-level error; and a request-level
error can only originate in the decode stage (reader or normalization) or
in the uncaught spectral stage (scipy's periodogram raising at a zero
sample rate inside `compute_basic_features`). -/
theorem c3_failure_propagation (o : Lib) (samples : List ℚ) (rate : ℚ) (c : ℕ) :
    (o.praatFails samples rate = true →
      extract_praat_features o samples rate = defaultPraat) ∧
    (o.fftMag samples = none →
      compute_mfcc o samples rate c = List.replicate c 0) ∧
    (∀ data rate2 d raw ns, o.read data = .ok (rate2, d, raw) →
      normalizeSamples d raw = some ns → rate2 ≠ 0 →
      ∃ fv, extract_features o data = .ok fv) ∧
    (∀ data e, o.read data = .error e →
      extract_features o data = .error ("Audio processing failed: " ++ e)) ∧
    (∀ data msg, extract_features o data = .error msg →
      (∃ e, o.read data = .error e) ∨
      (∃ rate2 d raw, o.read data = .ok (rate2, d, raw) ∧
        normalizeSamples d raw = none) ∨
      (∃ rate2 d raw ns, o.read data = .ok (rate2, d, raw) ∧
        normalizeSamples d raw = some ns ∧
        compute_basic_features o (toMono ns) rate2 = none)) := by
  refine ⟨?_, ?_, ?_, ?_, ?_⟩
  · intro h
    simp [extract_praat_features, h]
  · intro h
    unfold compute_mfcc
    rw [h]
  · intro data rate2 d raw ns hr hn hrate
    obtain ⟨fv, hfv, _⟩ := buildVector_some o rate2 (toMono ns) hrate
    exact ⟨fv, by simp [extract_features, extract_decoded, hr, hn, hfv]⟩
  · intro data e h
    simp [extract_features, h]
  · intro data msg h
    cases hr : o.read data with
    | error e => exact Or.inl ⟨e, rfl⟩
    | ok v =>
      obtain ⟨rate2, d, raw⟩ := v
      cases hn : normalizeSamples d raw with
      | none => exact Or.inr (Or.inl ⟨rate2, d, raw, rfl, hn⟩)
      | some ns =>
        cases hbasic : compute_basic_features o (toMono ns) rate2 with
        | none => exact Or.inr (Or.inr ⟨rate2, d, raw, ns, rfl, hn, hbasic⟩)
        | some basic =>
          have hb : ∃ fv, buildVector o rate2 (toMono ns) = some fv := by
            unfold buildVector
            rw [hbasic]
            exact ⟨_, rfl⟩
          obtain ⟨fv, hfv⟩ := hb
          simp [extract_features, extract_decoded, hr, hn, hfv] at h

/-- Witness for the amended C3 at concrete oracles: a caught Praat failure,
a caught FFT failure, a successful nonzero-rate decode yielding `ok`, and
a reader failure surfacing as the request error. -/
theorem c3_failure_propagation_witness :
    extract_praat_features failLib [] 5 = defaultPraat ∧
    compute_mfcc failLib [3] 5 13 = List.replicate 13 0 ∧
    (extract_features okLib [4]).toOption.isSome = true ∧
    extract_features failLib [4] = .error ("Audio processing failed: " ++ "bad wav") := by
  have h1 := c3_failure_propagation failLib [] 5 13
  have h2 := c3_failure_propagation failLib [3] 5 13
  have h3 := c3_failure_propagation okLib [] 8000 13
  obtain ⟨fv, hfv⟩ := h3.2.2.1 [4] 8000 Dtype.int16 (RawSamples.mono [1])
    (RawSamples.mono [1 / 32768]) rfl (by simp [normalizeSamples, mapSamples])
    (by norm_num)
  exact ⟨h1.1 rfl, h2.2.1 rfl, by rw [hfv]; rfl, h2.2.2.2.1 [4] "bad wav" rfl⟩

/-- Claim C8: the extraction result is a pure function of the byte buffer.
The only module-level state a request touches is the log stream; the
response component is independent of it, so a second run on the same
buffer — including one sequenced after the first, against the state the
first run left behind — returns the identical `FeatureVector`. -/
theorem c8_extraction_pure (o : Lib) (data : List ℕ) (log1 log2 : List String) :
    (extract_features_run o data log1).1 = (extract_features_run o data log2).1 ∧
    (extract_features_run o data (extract_features_run o data log1).2).1 =
      (extract_features_run o data log1).1 :=
  ⟨rfl, rfl⟩

/-- If any voiced frame was collected, the analysis duration is positive:
the frame loop `np.arange(0, duration, 0.01)` is empty otherwise. -/
theorem voicedF0s_pos_duration (o : Lib) (samples : List ℚ) (rate : ℚ)
    (h : voicedF0s o samples rate ≠ []) : 0 < praatDuration samples rate := by
  by_contra hd
  push_neg at hd
  apply h
  have hq : praatDuration samples rate / TIME_STEP_S ≤ 0 :=
    div_nonpos_of_nonpos_of_nonneg hd (by norm_num [TIME_STEP_S])
  have hc : frameCount (praatDuration samples rate) = 0 :=
    Nat.ceil_eq_zero.mpr hq
  unfold voicedF0s frameTimes
  rw [hc]
  rfl

/-- Claim C4: the speech-rate estimate.  With at least one voiced frame the
value is `((voicedFrames · 0.01) / 0.5) / duration · 60` clamped to
`[80, 200]` (a voiced frame forces `duration > 0`); with zero voiced
frames, on a Praat failure, or at zero duration it is exactly `0`; and for
every input it is either `0` or inside `[80, 200]`. -/
theorem c4_speech_rate (o : Lib) (samples : List ℚ) (rate : ℚ) :
    (o.praatFails samples rate = false → voicedF0s o samples rate ≠ [] →
      (extract_praat_features o samples rate).speech_rate =
        max 80 (min 200 (((voicedF0s o samples rate).length : ℚ) * TIME_STEP_S / (1 / 2) /
          praatDuration samples rate * 60))) ∧
    (o.praatFails samples rate = false → voicedF0s o samples rate = [] →
      (extract_praat_features o samples rate).speech_rate = 0) ∧
    (o.praatFails samples rate = true →
      (extract_praat_features o samples rate).speech_rate = 0) ∧
    (praatDuration samples rate = 0 →
      (extract_praat_features o samples rate).speech_rate = 0) ∧
    ((extract_praat_features o samples rate).speech_rate = 0 ∨
      (80 ≤ (extract_praat_features o samples rate).speech_rate ∧
        (extract_praat_features o samples rate).speech_rate ≤ 200)) := by
  refine ⟨?_, ?_, ?_, ?_, ?_⟩
  · intro hf hv
    have hd := voicedF0s_pos_duration o samples rate hv
    simp [extract_praat_features, hf, hv, hd]
  · intro hf hv
    simp [extract_praat_features, hf, hv]
  · intro hf
    simp [extract_praat_features, hf, defaultPraat]
  · intro hd0
    by_cases hf : o.praatFails samples rate = true
    · simp [extract_praat_features, hf, defaultPraat]
    · by_cases hv : voicedF0s o samples rate = []
      · simp [extract_praat_features, hf, hv]
      · exact absurd hd0 (ne_of_gt (voicedF0s_pos_duration o samples rate hv))
  · by_cases hf : o.praatFails samples rate = true
    · left
      simp [extract_praat_features, hf, defaultPraat]
    · by_cases hv : voicedF0s o samples rate = []
      · left
        simp [extract_praat_features, hf, hv]
      · right
        have hd := voicedF0s_pos_duration o samples rate hv
        simp only [extract_praat_features, hf, Bool.false_eq_true, if_false, hv,
          ne_eq, not_false_eq_true, if_true, hd, ite_true]
        constructor
        · exact le_max_left _ _
        · exact max_le (by norm_num) (min_le_left _ _)

/-- Witness for C4: an oracle that voices no frame yields a zero rate. -/
theorem c4_speech_rate_witness :
    (extract_praat_features failLib [1] 8000).speech_rate = 0 :=
  (c4_speech_rate failLib [1] 8000).2.1 rfl
    (List.filterMap_eq_nil_iff.mpr (fun _ _ => rfl))

/-- Claim C5 counterexample: for a fallback-dtype signal (with scipy:
`float64`) whose peak is one half, the code leaves the samples unchanged
(the rescale is guarded by `peak > 1.0`), while the claim's unconditional
peak rescale would scale them to full amplitude. -/
theorem c5_normalization_counterexample :
    normalizeSamples Dtype.other (RawSamples.mono [1 / 2]) =
      some (RawSamples.mono [1 / 2]) ∧
    normalizeOtherClaim (RawSamples.mono [1 / 2]) = RawSamples.mono [1] ∧
    RawSamples.mono [(1 : ℚ)] ≠ RawSamples.mono [1 / 2] := by
  have hp : peak (RawSamples.mono [1 / 2]) = 1 / 2 := by
    simp [peak, allSamples]
  refine ⟨?_, ?_, ?_⟩
  · rw [normalizeSamples]
    rw [if_neg (by simp [allSamples])]
    rw [if_neg (by rw [hp]; norm_num)]
  · simp only [normalizeOtherClaim, mapSamples, List.map_cons, List.map_nil, hp]
    norm_num
  · norm_num

/-- Claim C5 amended: the four recognized dtypes are normalized exactly as
claimed (`÷32768`, `÷2^31`, center-and-scale by 128, float passthrough);
a sample array of any other dtype is rescaled by its observed peak
absolute amplitude only when that peak exceeds `1.0`, and passes through
unchanged otherwise. -/
theorem c5_normalization_amended (d : Dtype) (r : RawSamples)
    (h : d = Dtype.other → allSamples r ≠ []) :
    normalizeSamples d r = some (normalizeSpecAmended d r) := by
  cases d with
  | int16 => rfl
  | int32 =>
    have h31 : (2147483648 : ℚ) = 2 ^ 31 := by norm_num
    simp [normalizeSamples, normalizeSpecAmended, h31]
  | uint8 => rfl
  | float32 => rfl
  | other =>
    have hne := h rfl
    unfold normalizeSamples normalizeSpecAmended
    rw [if_neg hne]
    by_cases hp : 1 < peak r
    · rw [if_pos hp, if_pos hp]
    · rw [if_neg hp, if_neg hp]

/-- Witness for the amended C5: a half-scale 16-bit sample maps to `1/2`. -/
theorem c5_normalization_amended_witness :
    normalizeSamples Dtype.int16 (RawSamples.mono [16384]) =
      some (normalizeSpecAmended Dtype.int16 (RawSamples.mono [16384])) ∧
    normalizeSpecAmended Dtype.int16 (RawSamples.mono [16384]) =
      RawSamples.mono [1 / 2] :=
  ⟨c5_normalization_amended Dtype.int16 (RawSamples.mono [16384]) (fun hd => nomatch hd),
   by norm_num [normalizeSpecAmended, mapSamples]⟩

/-- Elementwise maps commute with duplicating a mono signal into two
identical channels. -/
theorem mapSamples_dup (f : ℚ → ℚ) (xs : List ℚ) :
    mapSamples f (RawSamples.multi (xs.map (fun x => [x, x]))) =
      RawSamples.multi ((xs.map f).map (fun x => [x, x])) := by
  simp [mapSamples, List.map_map, Function.comp]

/-- Averaging across two identical channels recovers the mono signal. -/
theorem toMono_dup (xs : List ℚ) :
    toMono (RawSamples.multi (xs.map (fun x => [x, x]))) = xs := by
  unfold toMono
  simp only [List.map_map, Function.comp]
  have h : ((fun row : List ℚ => row.sum / (row.length : ℚ)) ∘ fun x => [x, x]) = id := by
    funext x
    simp [Function.comp]
  rw [h, List.map_id]

/-- The observed peak of a duplicated-channel signal equals the mono peak. -/
theorem peak_dup (xs : List ℚ) :
    peak (RawSamples.multi (xs.map (fun x => [x, x]))) = peak (RawSamples.mono xs) := by
  unfold peak allSamples
  induction xs with
  | nil => rfl
  | cons x t ih =>
    simp only [List.map_cons, List.flatten_cons, List.cons_append, List.nil_append,
      List.foldr_cons] at ih ⊢
    rw [← max_assoc, max_self, ih]

/-- Claim C7: a stereo input whose two channels are sample-for-sample
identical goes through normalization and the mean-across-channels downmix
to exactly the mono signal's pipeline input, so the whole extraction
produces the identical result. -/
theorem c7_identical_stereo_equals_mono (o : Lib) (rate : ℚ) (d : Dtype) (xs : List ℚ) :
    extract_decoded o rate d (RawSamples.multi (xs.map (fun x => [x, x]))) =
      extract_decoded o rate d (RawSamples.mono xs) := by
  cases d with
  | int16 =>
    simp only [extract_decoded, normalizeSamples]
    rw [mapSamples_dup, toMono_dup]
    rfl
  | int32 =>
    simp only [extract_decoded, normalizeSamples]
    rw [mapSamples_dup, toMono_dup]
    rfl
  | uint8 =>
    simp only [extract_decoded, normalizeSamples]
    rw [mapSamples_dup, toMono_dup]
    rfl
  | float32 =>
    simp only [extract_decoded, normalizeSamples]
    rw [toMono_dup]
    rfl
  | other =>
    cases xs with
    | nil => rfl
    | cons y t =>
      have h1 : allSamples (RawSamples.multi ((y :: t).map (fun x => [x, x]))) ≠ [] := by
        simp [allSamples]
      have h2 : allSamples (RawSamples.mono (y :: t)) ≠ [] := by
        simp [allSamples]
      simp only [extract_decoded, normalizeSamples, if_neg h1, if_neg h2, peak_dup]
      by_cases hp : 1 < peak (RawSamples.mono (y :: t))
      · rw [if_pos hp, if_pos hp]
        simp only []
        rw [mapSamples_dup, toMono_dup]
        rfl
      · rw [if_neg hp, if_neg hp]
        simp only []
        rw [toMono_dup]
        rfl

/-- A list whose elements all dominate a positive constant has positive sum. -/
theorem list_sum_pos_of_le {c : ℚ} (hc : 0 < c) :
    ∀ l : List ℚ, l ≠ [] → (∀ x ∈ l, c ≤ x) → 0 < l.sum := by
  intro l
  induction l with
  | nil => intro h _; exact absurd rfl h
  | cons x t ih =>
    intro _ hall
    have hx : 0 < x := lt_of_lt_of_le hc (hall x (by simp))
    rcases eq_or_ne t [] with ht | ht
    · subst ht
      simpa using hx
    · have hts := ih ht (fun y hy => hall y (by simp [hy]))
      rw [List.sum_cons]
      exact add_pos hx hts

/-- Claim C9: whenever the periodogram materializes (any nonzero sample
rate), every floored PSD bin is at least `1e-20`, so for a non-empty
signal the PSD sum and arithmetic mean are strictly positive and the
spectral centroid and flatness take their division branches — the `0.0`
fallback branches are unreachable. -/
theorem c9_psd_floor_positive (o : Lib) (samples : List ℚ) (fs : ℚ) (p : ℕ → ℚ)
    (h : samples ≠ []) (hp : o.periodogram samples fs = some p) :
    0 < (psdList p samples.length).sum ∧
    0 < (psdList p samples.length).sum / ((psdList p samples.length).length : ℚ) ∧
    (compute_basic_features o samples fs).map (fun b => b.spectralCentroid) =
      some ((List.zipWith (fun fr q => fr * q) (freqList samples fs)
        (psdList p samples.length)).sum / (psdList p samples.length).sum) ∧
    (compute_basic_features o samples fs).map (fun b => b.spectralFlatness) =
      some (o.geomMean (psdList p samples.length) /
        ((psdList p samples.length).sum / ((psdList p samples.length).length : ℚ))) := by
  have hfloor : (0 : ℚ) < PSD_FLOOR := by norm_num [PSD_FLOOR]
  have hne : psdList p samples.length ≠ [] := by
    simp [psdList, psdBins]
  have hall : ∀ x ∈ psdList p samples.length, PSD_FLOOR ≤ x := by
    intro x hx
    simp only [psdList, List.mem_map, List.mem_range] at hx
    obtain ⟨k, _, hk⟩ := hx
    rw [← hk]
    exact le_max_right _ _
  have hsum := list_sum_pos_of_le hfloor _ hne hall
  have hlen0 : (psdList p samples.length).length ≠ 0 := by
    simpa [List.length_eq_zero] using hne
  have hlen : (0 : ℚ) < ((psdList p samples.length).length : ℚ) := by
    exact_mod_cast Nat.pos_of_ne_zero hlen0
  have hmean : 0 < (psdList p samples.length).sum /
      ((psdList p samples.length).length : ℚ) :=
    div_pos hsum hlen
  refine ⟨hsum, hmean, ?_, ?_⟩
  · simp [compute_basic_features, h, hp, hsum]
  · simp [compute_basic_features, h, hp, hlen0, hmean]

/-- Witness for C9 at a one-sample signal and a concrete oracle. -/
theorem c9_psd_floor_positive_witness :
    0 < (psdList (fun _ => 0) 1).sum ∧
    0 < (psdList (fun _ => 0) 1).sum / ((psdList (fun _ => 0) 1).length : ℚ) ∧
    (compute_basic_features okLib [1] 8).map (fun b => b.spectralCentroid) =
      some ((List.zipWith (fun fr q => fr * q) (freqList [1] 8)
        (psdList (fun _ => 0) 1)).sum / (psdList (fun _ => 0) 1).sum) ∧
    (compute_basic_features okLib [1] 8).map (fun b => b.spectralFlatness) =
      some (okLib.geomMean (psdList (fun _ => 0) 1) /
        ((psdList (fun _ => 0) 1).sum / ((psdList (fun _ => 0) 1).length : ℚ))) :=
  c9_psd_floor_positive okLib [1] 8 (fun _ => 0) (by simp)
    (by norm_num [okLib, stubLib])

/-- Band start boundaries are monotone in the band index. -/
theorem bandStart_mono (M c : ℕ) {i j : ℕ} (h : i ≤ j) :
    bandStart M c i ≤ bandStart M c j :=
  Nat.div_le_div_right (mul_le_mul_right' h M)

/-- Claim C10: the band boundaries `⌊i·M/c⌋` form an exact partition of
`[0, M)`: the first range starts at `0`, the last ends at `M`, each range's
end is the next range's start, and every index `j < M` lies in exactly one
band — no magnitude bin is skipped or double-counted. -/
theorem c10_bands_exact_partition (M c : ℕ) (hc : 0 < c) :
    bandStart M c 0 = 0 ∧
    bandEnd M c (c - 1) = M ∧
    (∀ i, bandEnd M c i = bandStart M c (i + 1)) ∧
    (∀ j, j < M → ∃! i, i < c ∧ bandStart M c i ≤ j ∧ j < bandEnd M c i) := by
  refine ⟨by simp [bandStart], ?_, fun i => rfl, ?_⟩
  · unfold bandEnd
    have h1 : c - 1 + 1 = c := by omega
    rw [h1]
    exact Nat.mul_div_cancel_left M hc
  · intro j hj
    have hM : 0 < M := lt_of_le_of_lt (Nat.zero_le j) hj
    set n := c * j + (c - 1) with hn
    set i0 := n / M with hi0
    have key1 : i0 * M ≤ n := Nat.div_mul_le_self n M
    have e1 : bandStart M c i0 ≤ j := by
      unfold bandStart
      have h2 : i0 * M / c ≤ n / c := Nat.div_le_div_right key1
      have h3 : n / c = j := by
        rw [hn, Nat.mul_add_div hc, Nat.div_eq_of_lt (by omega)]
        omega
      rw [h3] at h2
      exact h2
    have key2 : n < (i0 + 1) * M := by
      have hdm := (Nat.div_add_mod n M).symm
      have hmod := Nat.mod_lt n hM
      calc n = M * i0 + n % M := hdm
        _ < M * i0 + M := Nat.add_lt_add_left hmod _
        _ = (i0 + 1) * M := by ring
    have e2 : j < bandEnd M c i0 := by
      unfold bandEnd
      have hd : (j + 1) * c = c * j + c := by ring
      have hmul : (j + 1) * c ≤ (i0 + 1) * M := by
        rw [hd]
        omega
      exact Nat.lt_of_succ_le ((Nat.le_div_iff_mul_le hc).mpr hmul)
    have hic : i0 < c := by
      rw [hi0]
      refine (Nat.div_lt_iff_lt_mul hM).mpr ?_
      have h1 : c * (j + 1) ≤ c * M := mul_le_mul_left' (Nat.succ_le_of_lt hj) c
      have h2 : c * (j + 1) = c * j + c := by ring
      omega
    refine ⟨i0, ⟨hic, e1, e2⟩, ?_⟩
    rintro i' ⟨_, hlo, hhi⟩
    by_contra hne
    rcases Nat.lt_or_ge i' i0 with hlt | hge
    · have h1 : bandEnd M c i' ≤ bandStart M c i0 :=
        bandStart_mono M c (Nat.succ_le_of_lt hlt)
      exact absurd (lt_of_lt_of_le hhi (le_trans h1 e1)) (lt_irrefl j)
    · have hgt : i0 < i' := lt_of_le_of_ne hge (Ne.symm hne)
      have h1 : bandEnd M c i0 ≤ bandStart M c i' :=
        bandStart_mono M c (Nat.succ_le_of_lt hgt)
      exact absurd (lt_of_lt_of_le e2 (le_trans h1 hlo)) (lt_irrefl j)

/-- Witness for C10 at `M = 10`, `c = 3`. -/
theorem c10_bands_exact_partition_witness :
    bandStart 10 3 0 = 0 ∧ bandEnd 10 3 (3 - 1) = 10 ∧
    bandEnd 10 3 0 = bandStart 10 3 1 := by
  have h := c10_bands_exact_partition 10 3 (by norm_num)
  exact ⟨h.1, h.2.1, h.2.2.1 0⟩

/-- Summing a contiguous slice of a list equals the indexed sum over the
corresponding index interval. -/
theorem sum_drop_take (m : List ℚ) (lo : ℕ) :
    ∀ k, lo + k ≤ m.length →
      ((m.drop lo).take k).sum = ∑ j in Finset.Ico lo (lo + k), m.getD j 0 := by
  intro k
  induction k with
  | zero => simp
  | succ k ih =>
    intro h
    have hk : lo + k < m.length := by omega
    rw [List.take_succ, List.sum_append, ih (by omega),
      show lo + (k + 1) = (lo + k) + 1 from by omega,
      Finset.sum_Ico_succ_top (by omega : lo ≤ lo + k)]
    congr 1
    rw [List.getElem?_drop, List.getElem?_eq_getElem hk]
    simp [List.getD_eq_getElem?_getD, List.getElem?_eq_getElem hk]

/-- The success branch of `compute_mfcc`, written out. -/
theorem compute_mfcc_some (o : Lib) (samples : List ℚ) (sr : ℚ) (c : ℕ) (ms : List ℚ)
    (h : o.fftMag samples = some ms) :
    compute_mfcc o samples sr c =
      (List.range c).map (fun i =>
        if bandStart (ms.take (ms.length / 2)).length c i <
            bandEnd (ms.take (ms.length / 2)).length c i then
          (((ms.take (ms.length / 2)).drop
              (bandStart (ms.take (ms.length / 2)).length c i)).take
            (bandEnd (ms.take (ms.length / 2)).length c i -
              bandStart (ms.take (ms.length / 2)).length c i)).sum /
            ((bandEnd (ms.take (ms.length / 2)).length c i -
              bandStart (ms.take (ms.length / 2)).length c i : ℕ) : ℚ)
        else 0) := by
  unfold compute_mfcc
  rw [h]

/-- Claim C6: `compute_mfcc` refines the spec-side band definition — it takes
the FFT magnitudes, keeps the first `⌊N/2⌋` bins, partitions their indices
into the `numCoeffs` floor-boundary ranges, and returns the arithmetic mean
magnitude of each range with `0.0` for an empty range. -/
theorem c6_cepstral_bands_refine (o : Lib) (samples : List ℚ) (sr : ℚ) (c : ℕ)
    (ms : List ℚ) (h : o.fftMag samples = some ms) :
    compute_mfcc o samples sr c = cepstralBandsSpec c (ms.take (ms.length / 2)) := by
  rw [compute_mfcc_some o samples sr c ms h]
  unfold cepstralBandsSpec
  apply List.map_congr_left
  intro i hi
  rw [List.mem_range] at hi
  have hc : 0 < c := lt_of_le_of_lt (Nat.zero_le i) hi
  set mag := ms.take (ms.length / 2) with hmag
  set lo := bandStart mag.length c i with hlo
  set hiB := bandEnd mag.length c i with hhiB
  have hhiM : hiB ≤ mag.length := by
    rw [hhiB]
    unfold bandEnd
    calc (i + 1) * mag.length / c ≤ c * mag.length / c :=
          Nat.div_le_div_right (mul_le_mul_right' (by omega) mag.length)
      _ = mag.length := Nat.mul_div_cancel_left mag.length hc
  by_cases hlt : lo < hiB
  · rw [if_pos hlt, if_pos (Finset.nonempty_Ico.mpr hlt)]
    rw [sum_drop_take mag lo (hiB - lo) (by omega),
      show lo + (hiB - lo) = hiB from by omega, Nat.card_Ico]
  · rw [if_neg hlt, if_neg (by rw [Finset.nonempty_Ico]; exact hlt)]

/-- Witness for C6 at a concrete four-sample signal. -/
theorem c6_cepstral_bands_refine_witness :
    compute_mfcc okLib [0, 0, 0, 0] 8000 13 =
      cepstralBandsSpec 13
        ((List.replicate 4 (0 : ℚ)).take ((List.replicate 4 (0 : ℚ)).length / 2)) :=
  c6_cepstral_bands_refine okLib [0, 0, 0, 0] 8000 13 (List.replicate 4 0) rfl
